import Mathlib

/-
  Verification development for the knowledge_rag crawler/extractor.

  Shallow embedding of src/crawler.py and src/src/extract.py.
  Timestamps are modelled as integers (the source compares parsed
  datetime values with a linear order; the parsing of ISO-8601 strings by
  datetime.fromisoformat is a collaborator, so a sitemap lastmod value is
  embedded as "absent", "present but unparsable", or "parsed to t").
  JSON records are embedded as structures with Option fields: a field
  whose key is missing from the underlying dict, or whose value fails to
  parse, is none.  External collaborators (requests, BeautifulSoup, the
  GCS client, the wall clock) are passed in as function parameters.
-/

namespace KnowledgeRag

/-- A record of the crawler meta ledger (one JSON object of a JSONL
line).  Fields mirror the dict built in crawler.process_updates:
id, filename, fetched_at, url; a missing key is none. -/
structure MetaRecord where
  id : Option Int
  filename : Option String
  url : Option String
  fetched_at : Option Int
deriving DecidableEq

/-- A record as serialized by crawler.save_meta_chunk: only the keys
id, filename, fetched_at are written; the url key is not serialized. -/
structure ChunkRecord where
  id : Option Int
  filename : Option String
  fetched_at : Option Int
deriving DecidableEq

/-- The lastmod value of one sitemap url element, after the
datetime.fromisoformat attempt of crawler.process_updates:
absent (no lastmod element), malformed (fromisoformat raised, the
exception is caught and sitemap_lastmod set to None), or parsed. -/
inductive Lastmod where
  | absent
  | malformed
  | parsed (t : Int)
deriving DecidableEq

/-- One (url, lastmod) pair as returned by crawler.parse_sitemap. -/
structure SitemapEntry where
  url : String
  lastmod : Lastmod
deriving DecidableEq

/-- The value of the local variable sitemap_lastmod after lines 265-273
of crawler.py: None for an absent or unparsable lastmod. -/
def sitemapLastmod : Lastmod → Option Int
  | Lastmod.absent => none
  | Lastmod.malformed => none
  | Lastmod.parsed t => some t

/-- One meta JSONL blob in the GCS bucket, as seen by
crawler.load_previous_meta: the timestamp and chunk number from its
filename index_TIMESTAMP_N.jsonl, and its parsed records. -/
structure Blob where
  ts : Int
  chunkNum : Nat
  records : List ChunkRecord
deriving DecidableEq

/-- External collaborators of crawler.process_updates: download_page
(None models a caught request failure), the outcome of upload_to_gcs for
the meta chunk with a given chunk number (the function prints and
returns a Bool), and the wall clock datetime.now. -/
structure World where
  download : String → Option String
  uploadOk : Nat → Bool
  now : Int

/-- Mutable state of one crawler.process_updates run: the new_meta_records
buffer, cumulative_meta, next_id, chunk_counter, and the flushed chunks
(chunk number, serialized records, upload outcome) in flush order. -/
structure RunState where
  newMeta : List MetaRecord
  cumulative : List MetaRecord
  nextId : Int
  chunkCounter : Nat
  flushed : List (Nat × List ChunkRecord × Bool)
deriving DecidableEq

/-- crawler.save_meta_chunk writes out_record with only the keys
id, filename, fetched_at (the url key is dropped). -/
def serializeRecord (r : MetaRecord) : ChunkRecord :=
  { id := r.id, filename := r.filename, fetched_at := r.fetched_at }

/-- Dict assignment url_latest[u] = t on an insertion-ordered map. -/
def updateUrlLatest : List (String × Int) → String → Int → List (String × Int)
  | [], u, t => [(u, t)]
  | (k, v) :: rest, u, t =>
    if k = u then (k, t) :: rest else (k, v) :: updateUrlLatest rest u t

/-- The url_latest lookup built by crawler.process_updates lines 240-251:
for each previous record, if both the url key and a parsable fetched_at
are present, keep the greatest fetched_at per url; a record missing
either (the exception path) is skipped. -/
def urlLatest (prev : List MetaRecord) : List (String × Int) :=
  prev.foldl (fun m r =>
    match r.url, r.fetched_at with
    | some u, some t =>
      match m.lookup u with
      | some t0 => if t > t0 then updateUrlLatest m u t else m
      | none => updateUrlLatest m u t
    | _, _ => m) []

/-- The fetch_required decision of crawler.process_updates lines 275-282:
when the url is in url_latest and sitemap_lastmod is not None, fetch iff
sitemap_lastmod is strictly greater; in every other case fetch. -/
def fetchRequired (ul : List (String × Int)) (url : String) (lm : Lastmod) : Bool :=
  match ul.lookup url, sitemapLastmod lm with
  | some t, some x => decide (x > t)
  | _, _ => true

/-- One step of Python max over id fields: a missing id key raises,
which poisons the whole computation (none). -/
def maxStep (acc j : Option Int) : Option Int :=
  match acc, j with
  | some m, some a => some (max m a)
  | _, _ => none

/-- Python max(record["id"] for record in records) over a list of id
fields: none models the raised exception (a missing id key, or an empty
list). -/
def maxIdOfIds : List (Option Int) → Option Int
  | [] => none
  | i :: is => is.foldl maxStep i

/-- The next_id seeding of crawler.process_updates lines 255-261 and
extract.process_extractions lines 148-154: start at 1; for a nonempty
ledger try max(id)+1, and on any exception silently keep 1. -/
def seedNextId (ids : List (Option Int)) : Int :=
  if ids.isEmpty then 1
  else
    match maxIdOfIds ids with
    | some m => m + 1
    | none => 1

/-- Flushing the buffer (crawler.process_updates lines 309-321 and
324-334): increment chunk_counter, save the chunk via save_meta_chunk,
upload it (the return value of upload_to_gcs is ignored), then clear
new_meta_records unconditionally. -/
def flushChunk (w : World) (s : RunState) : RunState :=
  let n := s.chunkCounter + 1
  { s with
    chunkCounter := n
    flushed := s.flushed ++ [(n, s.newMeta.map serializeRecord, w.uploadOk n)]
    newMeta := [] }

/-- The new_record dict of crawler.process_updates lines 298-303: the
page is saved as next_id.html and the record carries id, filename,
fetched_at (the wall clock) and the url. -/
def newRecordOf (w : World) (s : RunState) (url : String) : MetaRecord :=
  { id := some s.nextId
    filename := some (toString s.nextId ++ ".html")
    url := some url
    fetched_at := some w.now }

/-- Appending the new record to new_meta_records and cumulative_meta and
incrementing next_id (crawler.process_updates lines 304-306). -/
def appendRecord (w : World) (s : RunState) (url : String) : RunState :=
  { s with
    newMeta := s.newMeta ++ [newRecordOf w s url]
    cumulative := s.cumulative ++ [newRecordOf w s url]
    nextId := s.nextId + 1 }

/-- The fetch branch of crawler.process_updates lines 289-321: build and
append the new record, then flush when the buffer reached the chunk
size. -/
def recordNew (w : World) (chunkSize : Int) (s : RunState) (url : String) : RunState :=
  if ((appendRecord w s url).newMeta.length : Int) ≥ chunkSize then
    flushChunk w (appendRecord w s url)
  else appendRecord w s url

/-- One iteration of the url loop of crawler.process_updates: decide,
then on a required fetch call download_page; a failed download is
skipped with continue (no state change). -/
def stepUpdate (w : World) (chunkSize : Int) (ul : List (String × Int))
    (s : RunState) (e : SitemapEntry) : RunState :=
  if fetchRequired ul e.url e.lastmod then
    match w.download e.url with
    | none => s
    | some _ => recordNew w chunkSize s e.url
  else s

/-- The initial state of a run: empty buffer, cumulative_meta a copy of
previous_meta, next_id seeded from the previous ids. -/
def initState (prev : List MetaRecord) : RunState :=
  { newMeta := []
    cumulative := prev
    nextId := seedNextId (prev.map (fun r => r.id))
    chunkCounter := 0
    flushed := [] }

/-- The final flush of crawler.process_updates lines 323-334: flush any
remaining new meta records if they did not reach chunk_size. -/
def finalFlush (w : World) (s : RunState) : RunState :=
  if s.newMeta.isEmpty then s else flushChunk w s

/-- crawler.process_updates lines 219-334 over already-listed sitemap
entries and already-loaded previous meta: build url_latest, loop over
the entries, then flush any nonempty remainder. -/
def process_updates (w : World) (chunkSize : Int)
    (prev : List MetaRecord) (entries : List SitemapEntry) : RunState :=
  finalFlush w
    (entries.foldl (stepUpdate w chunkSize (urlLatest prev)) (initState prev))

/-- crawler.parse_sitemap lines 117-142: a transport or XML parse
failure is caught, printed, and an empty list returned. -/
def parse_sitemap : Except String (List SitemapEntry) → List SitemapEntry
  | Except.error _ => []
  | Except.ok entries => entries

/-- Loaded chunk records become dicts without a url key. -/
def chunkRecordToMeta (c : ChunkRecord) : MetaRecord :=
  { id := c.id, filename := c.filename, url := none, fetched_at := c.fetched_at }

/-- The blob selection loop of crawler.load_previous_meta lines 157-167:
keep the blob whose filename timestamp is strictly greatest (ties keep
the earlier-listed blob). -/
def latestBlob (blobs : List Blob) : Option Blob :=
  blobs.foldl (fun acc b =>
    match acc with
    | none => some b
    | some a => if b.ts > a.ts then some b else some a) none

/-- crawler.load_previous_meta lines 144-185: on a store error return
the (empty) records accumulated so far; otherwise download the single
latest meta blob and parse its lines. -/
def load_previous_meta : Except String (List Blob) → List MetaRecord
  | Except.error _ => []
  | Except.ok blobs =>
    match latestBlob blobs with
    | none => []
    | some b => b.records.map chunkRecordToMeta

/-- The crawl entry point: process_updates called on the results of
parse_sitemap and load_previous_meta. -/
def runCrawl (w : World) (chunkSize : Int)
    (listing : Except String (List SitemapEntry))
    (store : Except String (List Blob)) : RunState :=
  process_updates w chunkSize (load_previous_meta store) (parse_sitemap listing)

/-- The meta blobs present in the bucket after a run: one blob per
flushed chunk whose upload succeeded, named with the flush wall-clock
timestamp and the chunk number. -/
def blobsOfRun (w : World) (s : RunState) : List Blob :=
  s.flushed.filterMap (fun c =>
    if c.2.2 then some { ts := w.now, chunkNum := c.1, records := c.2.1 } else none)

/-! Extraction stage, src/src/extract.py. -/

/-- One input file of extract.process_extractions: its filename stem and
its content. -/
structure HtmlFile where
  stem : String
  content : String
deriving DecidableEq

/-- Decimal value of a digit list read left to right. -/
def digitsToNat (cs : List Char) : Nat :=
  cs.foldl (fun n c => n * 10 + (c.toNat - 48)) 0

/-- Python int(s) on a filename stem: an optional minus sign followed by
one or more digits parses; anything else raises (none). -/
def parseIntStem (s : String) : Option Int :=
  match s.toList with
  | [] => none
  | '-' :: rest =>
    if !rest.isEmpty && rest.all Char.isDigit then
      some (-(digitsToNat rest : Int))
    else none
  | cs =>
    if cs.all Char.isDigit then some (digitsToNat cs) else none

/-- Insertion of a file into a list sorted by the integer value of the
stem (only applied once every stem is known to parse). -/
def insertSorted (f : HtmlFile) : List HtmlFile → List HtmlFile
  | [] => [f]
  | g :: gs =>
    if (parseIntStem f.stem).getD 0 ≤ (parseIntStem g.stem).getD 0 then
      f :: g :: gs
    else g :: insertSorted f gs

/-- extract.process_extractions line 143: sorted(files, key=int(stem)).
Computing a sort key raises ValueError as soon as any stem is not a
valid integer, before any file is processed; otherwise the files are
sorted by their integer stems. -/
def sortHtmlFiles (files : List HtmlFile) : Except String (List HtmlFile) :=
  if files.all (fun f => (parseIntStem f.stem).isSome) then
    Except.ok (files.foldl (fun acc f => insertSorted f acc) [])
  else Except.error "invalid literal for int with base 10"

/-- A record of the extraction meta ledger: id, original_html_id,
processed_at; a missing key is none. -/
structure ExtractRecord where
  id : Option Int
  original_html_id : Option Int
  processed_at : Option Int
deriving DecidableEq

/-- External collaborators of extract.process_extractions: extract_body
(the BeautifulSoup transform, returning the empty string when no div
with id body is found), the upload outcomes, and the wall clock. -/
structure ExtractWorld where
  extractBody : String → String
  uploadOk : Nat → Bool
  now : Int

/-- Mutable state of one extract.process_extractions run, plus a count
of how often the Skipping-non-numeric-file branch was taken. -/
structure ExtractState where
  newMeta : List ExtractRecord
  cumulative : List ExtractRecord
  nextExtractionId : Int
  chunkCounter : Nat
  flushed : List (Nat × List ExtractRecord × Bool)
  skippedNonNumeric : Nat
deriving DecidableEq

/-- Flushing the extraction buffer (extract.process_extractions lines
187-198 and 199-209): save_meta_chunk, upload (result ignored), clear
the buffer unconditionally. -/
def flushExtractChunk (w : ExtractWorld) (s : ExtractState) : ExtractState :=
  let n := s.chunkCounter + 1
  { s with
    chunkCounter := n
    flushed := s.flushed ++ [(n, s.newMeta, w.uploadOk n)]
    newMeta := [] }

/-- Appending a new extraction record (extract.process_extractions
lines 179-186) and incrementing next_extraction_id. -/
def appendExtractRecord (w : ExtractWorld) (s : ExtractState) (originalId : Int) :
    ExtractState :=
  let r : ExtractRecord :=
    { id := some s.nextExtractionId
      original_html_id := some originalId
      processed_at := some w.now }
  { s with
    newMeta := s.newMeta ++ [r]
    cumulative := s.cumulative ++ [r]
    nextExtractionId := s.nextExtractionId + 1 }

/-- One iteration of the file loop of extract.process_extractions lines
156-198: re-parse the stem (the Skipping-non-numeric-file branch),
extract the body, skip on empty extraction, otherwise create the record
with the next extraction id and flush when the buffer is full. -/
def stepExtraction (w : ExtractWorld) (chunkSize : Int)
    (s : ExtractState) (f : HtmlFile) : ExtractState :=
  match parseIntStem f.stem with
  | none => { s with skippedNonNumeric := s.skippedNonNumeric + 1 }
  | some originalId =>
    if w.extractBody f.content = "" then s
    else
      if ((appendExtractRecord w s originalId).newMeta.length : Int) ≥ chunkSize then
        flushExtractChunk w (appendExtractRecord w s originalId)
      else appendExtractRecord w s originalId

/-- The initial state of an extraction run: empty buffer, cumulative
meta loaded from the local meta file, extraction id seeded from it. -/
def initExtractState (prevMeta : List ExtractRecord) : ExtractState :=
  { newMeta := []
    cumulative := prevMeta
    nextExtractionId := seedNextId (prevMeta.map (fun r => r.id))
    chunkCounter := 0
    flushed := []
    skippedNonNumeric := 0 }

/-- The final flush of extract.process_extractions lines 199-209. -/
def finalExtractFlush (w : ExtractWorld) (s : ExtractState) : ExtractState :=
  if s.newMeta.isEmpty then s else flushExtractChunk w s

/-- extract.process_extractions lines 130-209 over the input files and
the already-loaded previous meta (load_previous_meta of extract.py reads
the local meta file): sort by integer stem (an unparsable stem raises
out of the whole run), seed the extraction id, loop, final flush. -/
def process_extractions (w : ExtractWorld) (chunkSize : Int)
    (prevMeta : List ExtractRecord) (files : List HtmlFile) :
    Except String ExtractState :=
  match sortHtmlFiles files with
  | Except.error e => Except.error e
  | Except.ok sortedFiles =>
    Except.ok (finalExtractFlush w
      (sortedFiles.foldl (stepExtraction w chunkSize) (initExtractState prevMeta)))

/-! Concrete fixtures used by the counterexample and witness theorems. -/

/-- A world where every download succeeds and every upload succeeds. -/
def wOk : World :=
  { download := fun _ => some "page", uploadOk := fun _ => true, now := 10 }

/-- A world where downloads succeed but every store write fails. -/
def wFailUpload : World :=
  { download := fun _ => some "page", uploadOk := fun _ => false, now := 10 }

/-- A single sitemap entry with a parsed lastmod. -/
def entryU : SitemapEntry := { url := "u", lastmod := Lastmod.parsed 5 }

/-- A previously recorded page for url u fetched at time 5. -/
def prevKnown : MetaRecord :=
  { id := some 1, filename := some "1.html", url := some "u", fetched_at := some 5 }

/-- The first of two identical runs against an initially empty store. -/
def firstRun : RunState := runCrawl wOk 1 (Except.ok [entryU]) (Except.ok [])

/-- The second, identical run, loading the store the first run wrote. -/
def secondRun : RunState :=
  runCrawl wOk 1 (Except.ok [entryU]) (Except.ok (blobsOfRun wOk firstRun))

/-- A meta blob from an earlier flush (filename timestamp 1). -/
def blobOld : Blob :=
  { ts := 1, chunkNum := 1
    records := [{ id := some 1, filename := some "1.html", fetched_at := some 5 }] }

/-- A meta blob from a later flush (filename timestamp 2). -/
def blobNew : Blob :=
  { ts := 2, chunkNum := 1
    records := [{ id := some 2, filename := some "2.html", fetched_at := some 6 }] }

/-- An extraction world whose body extraction always comes back empty. -/
def ewEmpty : ExtractWorld :=
  { extractBody := fun _ => "", uploadOk := fun _ => true, now := 0 }

/-- The per-run chunk numbers 1, 2, ..., n. -/
def chunkNums (n : Nat) : List Nat :=
  (List.range n).map (fun k => k + 1)

/-- The consecutive ids start, start+1, ..., start+n-1. -/
def idRange (start : Int) (n : Nat) : List Int :=
  (List.range n).map (fun k => start + k)

/-! Generic helper lemmas. -/

theorem foldl_invariant {α σ : Type _} (P : σ → Prop) (f : σ → α → σ) :
    ∀ (l : List α) (s : σ), P s → (∀ s a, a ∈ l → P s → P (f s a)) →
      P (l.foldl f s) := by
  intro l
  induction l with
  | nil => intro s h _; exact h
  | cons a l ih =>
    intro s h hstep
    exact ih (f s a) (hstep s a (List.mem_cons_self a l) h)
      (fun s b hb => hstep s b (List.mem_cons_of_mem a hb))

theorem foldl_rel {α σ τ : Type _} (R : σ → τ → Prop)
    (f : σ → α → σ) (g : τ → α → τ) :
    ∀ (l : List α) (s : σ) (t : τ), R s t →
      (∀ s t a, R s t → R (f s a) (g t a)) →
      R (l.foldl f s) (l.foldl g t) := by
  intro l
  induction l with
  | nil => intro s t h _; exact h
  | cons a l ih =>
    intro s t h hstep
    exact ih (f s a) (g t a) (hstep s t a h) hstep

theorem chunkNums_succ (n : Nat) : chunkNums (n + 1) = chunkNums n ++ [n + 1] := by
  simp [chunkNums, List.range_succ]

theorem idRange_succ (a : Int) (n : Nat) :
    idRange a (n + 1) = idRange a n ++ [(a + n : Int)] := by
  simp [idRange, List.range_succ]

theorem finalFlush_newMeta_nil (w : World) (s : RunState) :
    (finalFlush w s).newMeta = [] := by
  unfold finalFlush
  cases h : s.newMeta with
  | nil => simp [h]
  | cons a l => simp [h, flushChunk]

theorem process_updates_newMeta_nil (w : World) (cs : Int)
    (prev : List MetaRecord) (entries : List SitemapEntry) :
    (process_updates w cs prev entries).newMeta = [] :=
  finalFlush_newMeta_nil w _

theorem foldl_maxStep_none : ∀ (l : List (Option Int)),
    l.foldl maxStep none = none := by
  intro l
  induction l with
  | nil => rfl
  | cons j l ih => exact ih

theorem foldl_maxStep_none_of_mem : ∀ (l : List (Option Int)) (i : Option Int),
    (none : Option Int) ∈ l → l.foldl maxStep i = none := by
  intro l
  induction l with
  | nil => intro i h; cases h
  | cons j l ih =>
    intro i h
    rcases List.mem_cons.mp h with rfl | hmem
    · show l.foldl maxStep (maxStep i none) = none
      have hz : maxStep i none = none := by cases i <;> rfl
      rw [hz, foldl_maxStep_none]
    · exact ih (maxStep i j) hmem

theorem foldl_maxStep_some : ∀ (l : List (Option Int)) (i : Option Int) (m : Int),
    l.foldl maxStep i = some m →
    (∃ a, i = some a ∧ a ≤ m) ∧ ∀ j ∈ l, ∃ b, j = some b ∧ b ≤ m := by
  intro l
  induction l with
  | nil =>
    intro i m h
    refine ⟨⟨m, h, le_refl m⟩, ?_⟩
    intro j hj; cases hj
  | cons j l ih =>
    intro i m h
    cases i with
    | none =>
      exfalso
      have hh : l.foldl maxStep (maxStep none j) = some m := h
      have hz : maxStep none j = none := rfl
      rw [hz, foldl_maxStep_none] at hh
      exact Option.noConfusion hh
    | some a =>
      cases j with
      | none =>
        exfalso
        have hh : l.foldl maxStep (maxStep (some a) none) = some m := h
        have hz : maxStep (some a) none = none := rfl
        rw [hz, foldl_maxStep_none] at hh
        exact Option.noConfusion hh
      | some b =>
        have hh : l.foldl maxStep (some (max a b)) = some m := h
        obtain ⟨⟨c, hc, hcm⟩, hrest⟩ := ih (some (max a b)) m hh
        have hcc : max a b = c := by injection hc
        refine ⟨⟨a, rfl, le_trans (le_max_left a b) (hcc ▸ hcm)⟩, ?_⟩
        intro j' hj'
        rcases List.mem_cons.mp hj' with rfl | hmem
        · exact ⟨b, rfl, le_trans (le_max_right a b) (hcc ▸ hcm)⟩
        · exact hrest j' hmem

theorem foldl_maxStep_isSome : ∀ (l : List (Option Int)) (i : Option Int),
    i.isSome → (∀ j ∈ l, j.isSome = true) → (l.foldl maxStep i).isSome := by
  intro l
  induction l with
  | nil => intro i hi _; exact hi
  | cons j l ih =>
    intro i hi hall
    have hj := hall j (List.mem_cons_self j l)
    obtain ⟨a, rfl⟩ := Option.isSome_iff_exists.mp hi
    obtain ⟨b, rfl⟩ := Option.isSome_iff_exists.mp hj
    exact ih (some (max a b)) rfl (fun j' h' => hall j' (List.mem_cons_of_mem _ h'))

theorem maxIdOfIds_none_of_mem (ids : List (Option Int))
    (h : (none : Option Int) ∈ ids) : maxIdOfIds ids = none := by
  cases ids with
  | nil => cases h
  | cons i is =>
    rcases List.mem_cons.mp h with rfl | hmem
    · exact foldl_maxStep_none is
    · exact foldl_maxStep_none_of_mem is i hmem

theorem mem_insertSorted : ∀ (l : List HtmlFile) (f g : HtmlFile),
    g ∈ insertSorted f l → g = f ∨ g ∈ l := by
  intro l
  induction l with
  | nil =>
    intro f g h
    rcases List.mem_cons.mp h with rfl | h
    · exact Or.inl rfl
    · cases h
  | cons a l ih =>
    intro f g h
    unfold insertSorted at h
    split at h
    · rcases List.mem_cons.mp h with rfl | h
      · exact Or.inl rfl
      · exact Or.inr h
    · rcases List.mem_cons.mp h with rfl | h
      · exact Or.inr (List.mem_cons_self g l)
      · rcases ih f g h with h1 | h1
        · exact Or.inl h1
        · exact Or.inr (List.mem_cons_of_mem a h1)

theorem sortHtmlFiles_error (files : List HtmlFile)
    (h : ∃ f ∈ files, parseIntStem f.stem = none) :
    sortHtmlFiles files = Except.error "invalid literal for int with base 10" := by
  obtain ⟨f, hf, hp⟩ := h
  have hall : files.all (fun f => (parseIntStem f.stem).isSome) = false := by
    rcases hb : files.all (fun f => (parseIntStem f.stem).isSome) with _ | _
    · rfl
    · exfalso
      have := List.all_eq_true.mp hb f hf
      rw [hp] at this
      cases this
  unfold sortHtmlFiles
  rw [hall]
  rfl

theorem sortHtmlFiles_ok_all (files sortedFiles : List HtmlFile)
    (h : sortHtmlFiles files = Except.ok sortedFiles) :
    ∀ f ∈ sortedFiles, (parseIntStem f.stem).isSome = true := by
  have hmono : ∀ (l acc : List HtmlFile),
      (∀ f ∈ l, (parseIntStem f.stem).isSome = true) →
      (∀ f ∈ acc, (parseIntStem f.stem).isSome = true) →
      ∀ f ∈ l.foldl (fun acc f => insertSorted f acc) acc,
        (parseIntStem f.stem).isSome = true := by
    intro l
    induction l with
    | nil => intro acc _ hacc; exact hacc
    | cons a l ih =>
      intro acc hl hacc
      apply ih
      · intro f hf; exact hl f (List.mem_cons_of_mem a hf)
      · intro f hf
        rcases mem_insertSorted acc a f hf with rfl | hmem
        · exact hl f (List.mem_cons_self f l)
        · exact hacc f hmem
  rcases hb : files.all (fun f => (parseIntStem f.stem).isSome) with _ | _
  · exfalso
    unfold sortHtmlFiles at h
    rw [hb] at h
    cases h
  · unfold sortHtmlFiles at h
    rw [hb] at h
    have hs : files.foldl (fun acc f => insertSorted f acc) [] = sortedFiles := by
      injection h
    rw [← hs]
    exact hmono files [] (List.all_eq_true.mp hb) (by intro f hf; cases hf)

theorem stepUpdate_download_failed (w : World) (cs : Int)
    (ul : List (String × Int)) (s : RunState) (e : SitemapEntry)
    (h : w.download e.url = none) : stepUpdate w cs ul s e = s := by
  unfold stepUpdate
  split
  · rw [h]
  · rfl

theorem process_updates_ids (w : World) (cs : Int) (prev : List MetaRecord)
    (entries : List SitemapEntry) :
    ∃ created, (process_updates w cs prev entries).cumulative = prev ++ created
      ∧ created.map (fun r => r.id) =
          (idRange (seedNextId (prev.map (fun r => r.id))) created.length).map some := by
  set seed := seedNextId (prev.map (fun r => r.id)) with hseed
  let P : RunState → Prop := fun s =>
    ∃ created, s.cumulative = prev ++ created
      ∧ s.nextId = seed + created.length
      ∧ created.map (fun r => r.id) = (idRange seed created.length).map some
  have hflush : ∀ s, P s → P (flushChunk w s) := fun s hP => hP
  have happ : ∀ s url, P s → P (appendRecord w s url) := by
    intro s url hP
    obtain ⟨created, h1, h2, h3⟩ := hP
    refine ⟨created ++ [newRecordOf w s url], ?_, ?_, ?_⟩
    · show s.cumulative ++ [newRecordOf w s url] = prev ++ (created ++ [newRecordOf w s url])
      rw [h1, List.append_assoc]
    · show s.nextId + 1 = seed + ((created ++ [newRecordOf w s url]).length : Int)
      rw [h2]
      push_cast [List.length_append]
      simp [add_comm, add_assoc, add_left_comm]
    · show (created ++ [newRecordOf w s url]).map (fun r => r.id) =
        (idRange seed (created ++ [newRecordOf w s url]).length).map some
      rw [List.map_append, h3, List.length_append]
      simp only [List.length_cons, List.length_nil, Nat.zero_add]
      rw [idRange_succ]
      simp only [List.map_append, List.map_cons, List.map_nil]
      congr 1
      show [(newRecordOf w s url).id] = [some (seed + (created.length : Int))]
      rw [show (newRecordOf w s url).id = some s.nextId from rfl, h2]
  have hstep : ∀ s e, P s → P (stepUpdate w cs (urlLatest prev) s e) := by
    intro s e hP
    unfold stepUpdate
    split
    · split
      · exact hP
      · unfold recordNew
        split
        · exact hflush _ (happ s e.url hP)
        · exact happ s e.url hP
    · exact hP
  have hinit : P (initState prev) := by
    refine ⟨[], ?_, ?_, ?_⟩
    · show prev = prev ++ []
      rw [List.append_nil]
    · show seedNextId (prev.map (fun r => r.id)) =
        seed + (([] : List MetaRecord).length : Int)
      simp [hseed]
    · rfl
  have hfold := foldl_invariant P (stepUpdate w cs (urlLatest prev)) entries
    (initState prev) hinit (fun s e _ hP => hstep s e hP)
  have hfinal : P (process_updates w cs prev entries) := by
    unfold process_updates finalFlush
    split
    · exact hfold
    · exact hflush _ hfold
  obtain ⟨created, h1, _, h3⟩ := hfinal
  exact ⟨created, h1, h3⟩

/-! Claim theorems. -/

/-- C10: seeding the sequencer from the loaded ledger is a total
function that never raises; for an empty ledger next_id is 1; when
max(id) computes to m (every loaded record has an integer id, and m
bounds them all) next_id is m + 1; when some loaded record lacks an id
field the exception is swallowed and next_id silently stays 1, and for a
nonempty all-ids-present ledger the max always computes. -/
theorem c10_seed_next_id :
    seedNextId [] = 1
    ∧ (∀ ids m, maxIdOfIds ids = some m →
        seedNextId ids = m + 1 ∧ ∀ i ∈ ids, ∃ a, i = some a ∧ a ≤ m)
    ∧ (∀ ids, (none : Option Int) ∈ ids → seedNextId ids = 1)
    ∧ (∀ ids, ids ≠ [] → (∀ i ∈ ids, i.isSome = true) →
        ∃ m, maxIdOfIds ids = some m) := by
  refine ⟨rfl, ?_, ?_, ?_⟩
  · intro ids m h
    constructor
    · cases ids with
      | nil => cases h
      | cons i is =>
        unfold seedNextId
        rw [h]
        simp
    · cases ids with
      | nil => intro i hi; cases hi
      | cons i is =>
        have hh : is.foldl maxStep i = some m := h
        obtain ⟨⟨a, ha, ham⟩, hrest⟩ := foldl_maxStep_some is i m hh
        intro j hj
        rcases List.mem_cons.mp hj with rfl | hmem
        · exact ⟨a, ha, ham⟩
        · exact hrest j hmem
  · intro ids h
    cases ids with
    | nil => cases h
    | cons i is =>
      unfold seedNextId
      rw [maxIdOfIds_none_of_mem (i :: is) h]
      simp
  · intro ids hne hall
    cases ids with
    | nil => exact absurd rfl hne
    | cons i is =>
      have hs := foldl_maxStep_isSome is i (hall i (List.mem_cons_self i is))
        (fun j hj => hall j (List.mem_cons_of_mem i hj))
      exact Option.isSome_iff_exists.mp hs

/-- Witness for C10: a loaded ledger with a record lacking the id field
seeds next_id to 1 even though id 5 is present (permitting reuse), while
an intact ledger with max id 7 seeds next_id to 8. -/
theorem c10_seed_next_id_witness :
    seedNextId [some 5, none] = 1 ∧ seedNextId [some 3, some 7] = 8 := by
  constructor
  · exact c10_seed_next_id.2.2.1 [some 5, none] (by decide)
  · exact (c10_seed_next_id.2.1 [some 3, some 7] 7 (by decide)).1

/-- C5: the Change Detector fetches on first sighting (no entry for the
url in url_latest), and when a record is known and the candidate
lastmod parses it fetches iff the parsed lastmod is strictly greater
than the recorded timestamp, so equal and older timestamps skip. -/
theorem c5_change_detector_decision (prev : List MetaRecord) (url : String) :
    (∀ lm, (urlLatest prev).lookup url = none →
      fetchRequired (urlLatest prev) url lm = true)
    ∧ (∀ t x, (urlLatest prev).lookup url = some t →
      (fetchRequired (urlLatest prev) url (Lastmod.parsed x) = true ↔ t < x)) := by
  constructor
  · intro lm h
    unfold fetchRequired
    rw [h]
  · intro t x h
    unfold fetchRequired
    rw [h]
    simp [sitemapLastmod]

/-- Witness for C5: with url u recorded at time 5, lastmod 7 fetches,
lastmod 5 (equal) skips, and an unknown url v fetches. -/
theorem c5_change_detector_decision_witness :
    fetchRequired (urlLatest [prevKnown]) "u" (Lastmod.parsed 7) = true
    ∧ fetchRequired (urlLatest [prevKnown]) "u" (Lastmod.parsed 5) = false
    ∧ fetchRequired (urlLatest [prevKnown]) "v" Lastmod.absent = true := by
  refine ⟨?_, ?_, ?_⟩
  · exact ((c5_change_detector_decision [prevKnown] "u").2 5 7 (by decide)).mpr (by decide)
  · have h := (c5_change_detector_decision [prevKnown] "u").2 5 5 (by decide)
    cases hb : fetchRequired (urlLatest [prevKnown]) "u" (Lastmod.parsed 5) with
    | false => rfl
    | true => exact absurd (h.mp hb) (by decide)
  · exact (c5_change_detector_decision [prevKnown] "v").1 Lastmod.absent (by decide)

/-- C3 counterexample: with a known record for url u (fetched at 5), an
absent or malformed lastmod decides Fetch, the page is downloaded and a
new record is appended; the claim says Skip with no state mutated. -/
theorem c3_known_record_missing_lastmod_fetches :
    fetchRequired (urlLatest [prevKnown]) "u" Lastmod.absent = true
    ∧ fetchRequired (urlLatest [prevKnown]) "u" Lastmod.malformed = true
    ∧ (process_updates wOk 10 [prevKnown]
        [{ url := "u", lastmod := Lastmod.absent }]).cumulative.length = 2
    ∧ (process_updates wOk 10 [prevKnown]
        [{ url := "u", lastmod := Lastmod.malformed }]).cumulative.length = 2 := by
  decide

/-- C3 amended: whenever the candidate lastmod is absent or
unparsable, the Change Detector decides Fetch regardless of any known
record (the always-fetch variant); only a known record together with a
parsed lastmod can decide Skip. -/
theorem c3_missing_lastmod_always_fetch (ul : List (String × Int)) (url : String)
    (lm : Lastmod) (h : sitemapLastmod lm = none) :
    fetchRequired ul url lm = true := by
  unfold fetchRequired
  rw [h]
  cases ul.lookup url <;> rfl

/-- Witness for the amended C3 at a concrete known record. -/
theorem c3_missing_lastmod_always_fetch_witness :
    fetchRequired (urlLatest [prevKnown]) "u" Lastmod.malformed = true :=
  c3_missing_lastmod_always_fetch (urlLatest [prevKnown]) "u" Lastmod.malformed (by decide)

/-- C2 counterexample: with two flushed chunks in the store (filename
timestamps 1 and 2), only the records of the latest chunk are loaded at
process start; the record flushed in the earlier chunk is absent from
the loaded ledger. -/
theorem c2_only_latest_chunk_loaded :
    load_previous_meta (Except.ok [blobOld, blobNew]) =
      [{ id := some 2, filename := some "2.html", url := none, fetched_at := some 6 }]
    ∧ ({ id := some 1, filename := some "1.html", url := none, fetched_at := some 5 } :
        MetaRecord) ∉ load_previous_meta (Except.ok [blobOld, blobNew]) := by
  decide

/-- C2 amended: at process start only the single most recently flushed
chunk file (the blob whose filename timestamp is greatest) is read, and
every loaded record lacks the url field (save_meta_chunk does not
serialize it), so loaded records never participate in change
detection. -/
theorem c2_load_previous_meta_latest_only (blobs : List Blob) (b : Blob)
    (h : latestBlob blobs = some b) :
    load_previous_meta (Except.ok blobs) = b.records.map chunkRecordToMeta
    ∧ ∀ r ∈ load_previous_meta (Except.ok blobs), r.url = none := by
  have h1 : load_previous_meta (Except.ok blobs) = b.records.map chunkRecordToMeta := by
    have h0 : load_previous_meta (Except.ok blobs) =
        match latestBlob blobs with
        | none => []
        | some b => b.records.map chunkRecordToMeta := rfl
    rw [h0, h]
  refine ⟨h1, ?_⟩
  intro r hr
  rw [h1] at hr
  obtain ⟨c, _, rfl⟩ := List.mem_map.mp hr
  rfl

/-- Witness for the amended C2 at a concrete two-blob store. -/
theorem c2_load_previous_meta_latest_only_witness :
    load_previous_meta (Except.ok [blobOld, blobNew]) =
      blobNew.records.map chunkRecordToMeta :=
  (c2_load_previous_meta_latest_only [blobOld, blobNew] blobNew (by decide)).1

/-- C6 counterexample: a listing failure is indistinguishable from an
empty listing (the run completes normally with zero work, no abort, no
nonzero exit), and after a ledger-load failure processing continues and
mutates: the entry is fetched, a record created and a chunk flushed. -/
theorem c6_fatal_errors_swallowed :
    runCrawl wOk 1 (Except.error "timeout") (Except.ok []) =
      runCrawl wOk 1 (Except.ok []) (Except.ok [])
    ∧ (runCrawl wOk 1 (Except.ok [entryU]) (Except.error "store down")).flushed ≠ []
    ∧ (runCrawl wOk 1 (Except.ok [entryU]) (Except.error "store down")).cumulative.length = 1 := by
  decide

/-- C6 amended: listing failures and ledger-load failures are swallowed,
not fatal: parse_sitemap returns an empty listing on any transport or
parse failure and load_previous_meta returns an empty ledger on any
store failure, and in both cases the run continues exactly as if the
collaborator had returned an empty result. -/
theorem c6_errors_treated_as_empty (w : World) (cs : Int) (msg : String)
    (store : Except String (List Blob))
    (listing : Except String (List SitemapEntry)) :
    runCrawl w cs (Except.error msg) store = runCrawl w cs (Except.ok []) store
    ∧ runCrawl w cs listing (Except.error msg) = runCrawl w cs listing (Except.ok []) :=
  ⟨rfl, rfl⟩

/-- C1 counterexample: with a store whose writes all fail, the flushed
chunk records the failed upload yet new_meta_records is cleared anyway:
the buffered record is not queued for any next flush attempt, and
nothing in the final state reflects the failure. -/
theorem c1_failed_upload_clears_buffer :
    (process_updates wFailUpload 1 [] [entryU]).flushed =
      [(1, [{ id := some 1, filename := some "1.html", fetched_at := some 10 }], false)]
    ∧ (process_updates wFailUpload 1 [] [entryU]).newMeta = [] := by
  decide

/-- C9: the extraction run sorts input files by the integer value of
the filename stem; if any .html file has a non-integer stem the sort
key computation raises before any file is processed and the whole run
errors out having extracted nothing, and consequently in any successful
run the per-file Skipping-non-numeric-file branch is never reached. -/
theorem c9_sort_key_raises_on_nonnumeric (w : ExtractWorld) (cs : Int)
    (prevMeta : List ExtractRecord) (files : List HtmlFile) :
    ((∃ f ∈ files, parseIntStem f.stem = none) →
      process_extractions w cs prevMeta files =
        Except.error "invalid literal for int with base 10")
    ∧ (∀ s, process_extractions w cs prevMeta files = Except.ok s →
        s.skippedNonNumeric = 0) := by
  constructor
  · intro hex
    unfold process_extractions
    rw [sortHtmlFiles_error files hex]
  · intro s hs
    unfold process_extractions at hs
    cases hsort : sortHtmlFiles files with
    | error e =>
      rw [hsort] at hs
      cases hs
    | ok sortedFiles =>
      rw [hsort] at hs
      have hall := sortHtmlFiles_ok_all files sortedFiles hsort
      have h0 : (sortedFiles.foldl (stepExtraction w cs)
          (initExtractState prevMeta)).skippedNonNumeric = 0 := by
        refine foldl_invariant (fun st => st.skippedNonNumeric = 0)
          (stepExtraction w cs) sortedFiles (initExtractState prevMeta) rfl ?_
        intro st f hf hst
        have hsome := hall f hf
        obtain ⟨oid, hp⟩ := Option.isSome_iff_exists.mp hsome
        have hred : stepExtraction w cs st f =
            if w.extractBody f.content = "" then st
            else if ((appendExtractRecord w st oid).newMeta.length : Int) ≥ cs then
              flushExtractChunk w (appendExtractRecord w st oid)
            else appendExtractRecord w st oid := by
          unfold stepExtraction
          rw [hp]
        rw [hred]
        split
        · exact hst
        · split
          · exact hst
          · exact hst
      have hfin : s = finalExtractFlush w
          (sortedFiles.foldl (stepExtraction w cs) (initExtractState prevMeta)) := by
        injection hs with hs
        exact hs.symm
      rw [hfin]
      unfold finalExtractFlush
      split
      · exact h0
      · simp only [flushExtractChunk]
        exact h0

/-- C8: a failed adapter call skips the item without consuming an id
and without mutating any state: a failed download leaves the run state
exactly unchanged, the ids of the records created in any run (under any
pattern of download failures) are consecutive from the seeded next_id
with no gaps, and in the extraction stage a file whose body extraction
comes back empty likewise leaves the state exactly unchanged. -/
theorem c8_adapter_failure_skips :
    (∀ (w : World) (cs : Int) (ul : List (String × Int)) (s : RunState)
       (e : SitemapEntry), w.download e.url = none → stepUpdate w cs ul s e = s)
    ∧ (∀ (w : World) (cs : Int) (prev : List MetaRecord)
         (entries : List SitemapEntry), ∃ created,
        (process_updates w cs prev entries).cumulative = prev ++ created
        ∧ created.map (fun r => r.id) =
            (idRange (seedNextId (prev.map (fun r => r.id))) created.length).map some)
    ∧ (∀ (w : ExtractWorld) (cs : Int) (s : ExtractState) (f : HtmlFile) (i : Int),
        parseIntStem f.stem = some i → w.extractBody f.content = "" →
        stepExtraction w cs s f = s) := by
  refine ⟨stepUpdate_download_failed, process_updates_ids, ?_⟩
  intro w cs s f i hp hb
  have hred : stepExtraction w cs s f =
      if w.extractBody f.content = "" then s
      else if ((appendExtractRecord w s i).newMeta.length : Int) ≥ cs then
        flushExtractChunk w (appendExtractRecord w s i)
      else appendExtractRecord w s i := by
    unfold stepExtraction
    rw [hp]
  rw [hred, if_pos hb]

/-- Witness for C8: a failing download leaves the initial state
untouched, and an empty body extraction leaves the extraction state
untouched. -/
theorem c8_adapter_failure_skips_witness :
    stepUpdate { download := fun _ => none, uploadOk := fun _ => true, now := 0 } 10 []
      (initState []) entryU = initState []
    ∧ stepExtraction ewEmpty 5 (initExtractState []) { stem := "3", content := "x" } =
        initExtractState [] := by
  constructor
  · exact c8_adapter_failure_skips.1 _ 10 [] (initState []) entryU rfl
  · exact c8_adapter_failure_skips.2.2 ewEmpty 5 (initExtractState [])
      { stem := "3", content := "x" } 3 (by decide) rfl

/-- Witness for C9: a single file with the non-numeric stem a makes the
whole extraction run error out. -/
theorem c9_sort_key_raises_on_nonnumeric_witness :
    process_extractions ewEmpty 5 [] [{ stem := "a", content := "x" }] =
      Except.error "invalid literal for int with base 10" :=
  (c9_sort_key_raises_on_nonnumeric ewEmpty 5 [] [{ stem := "a", content := "x" }]).1
    ⟨{ stem := "a", content := "x" }, by decide, by decide⟩

/-- C7: within a single run, the concatenation of all flushed chunks,
in flush order, is exactly the list of records newly appended to the
cumulative ledger during that run, serialized: no record is flushed
twice, none is dropped (the buffer is empty at run end), and the chunks
are numbered 1, 2, ... in flush order. -/
theorem c7_chunk_completeness (w : World) (cs : Int) (prev : List MetaRecord)
    (entries : List SitemapEntry) :
    ∃ created,
      (process_updates w cs prev entries).cumulative = prev ++ created
      ∧ ((process_updates w cs prev entries).flushed.map (fun c => c.2.1)).flatten
          = created.map serializeRecord
      ∧ (process_updates w cs prev entries).flushed.map (fun c => c.1)
          = chunkNums (process_updates w cs prev entries).chunkCounter
      ∧ (process_updates w cs prev entries).newMeta = [] := by
  have hnil := process_updates_newMeta_nil w cs prev entries
  let P : RunState → Prop := fun s =>
    ∃ created, s.cumulative = prev ++ created
      ∧ (s.flushed.map (fun c => c.2.1)).flatten ++ s.newMeta.map serializeRecord
          = created.map serializeRecord
      ∧ s.flushed.map (fun c => c.1) = chunkNums s.chunkCounter
  have hflush : ∀ s, P s → P (flushChunk w s) := by
    intro s hP
    obtain ⟨created, h1, h2, h3⟩ := hP
    refine ⟨created, h1, ?_, ?_⟩
    · show (((s.flushed ++ [(s.chunkCounter + 1, s.newMeta.map serializeRecord,
          w.uploadOk (s.chunkCounter + 1))]).map (fun c => c.2.1)).flatten)
          ++ ([] : List MetaRecord).map serializeRecord = created.map serializeRecord
      rw [List.map_append, List.flatten_append]
      simp only [List.map_cons, List.map_nil, List.flatten_cons, List.flatten_nil,
        List.append_nil]
      exact h2
    · show (s.flushed ++ [(s.chunkCounter + 1, s.newMeta.map serializeRecord,
          w.uploadOk (s.chunkCounter + 1))]).map (fun c => c.1)
          = chunkNums (s.chunkCounter + 1)
      rw [List.map_append, chunkNums_succ, h3]
      rfl
  have happ : ∀ s url, P s → P (appendRecord w s url) := by
    intro s url hP
    obtain ⟨created, h1, h2, h3⟩ := hP
    refine ⟨created ++ [newRecordOf w s url], ?_, ?_, h3⟩
    · show s.cumulative ++ [newRecordOf w s url] = prev ++ (created ++ [newRecordOf w s url])
      rw [h1, List.append_assoc]
    · show (s.flushed.map (fun c => c.2.1)).flatten
          ++ (s.newMeta ++ [newRecordOf w s url]).map serializeRecord
          = (created ++ [newRecordOf w s url]).map serializeRecord
      rw [List.map_append, List.map_append, ← List.append_assoc, h2]
  have hstep : ∀ s e, P s → P (stepUpdate w cs (urlLatest prev) s e) := by
    intro s e hP
    unfold stepUpdate
    split
    · split
      · exact hP
      · unfold recordNew
        split
        · exact hflush _ (happ s e.url hP)
        · exact happ s e.url hP
    · exact hP
  have hinit : P (initState prev) := by
    refine ⟨[], ?_, rfl, rfl⟩
    show prev = prev ++ []
    rw [List.append_nil]
  have hfold := foldl_invariant P (stepUpdate w cs (urlLatest prev)) entries
    (initState prev) hinit (fun s e _ hP => hstep s e hP)
  have hfinal : P (process_updates w cs prev entries) := by
    unfold process_updates finalFlush
    split
    · exact hfold
    · exact hflush _ hfold
  obtain ⟨created, h1, h2, h3⟩ := hfinal
  rw [hnil] at h2
  simp only [List.map_nil, List.append_nil] at h2
  exact ⟨created, h1, h2, h3, hnil⟩

/-- C1 amended: a store write failure is only logged: the chunk buffer
is cleared exactly as on success (the records are not re-queued for any
later flush attempt) and the upload outcome influences nothing else in
the run: two runs whose worlds differ only in upload outcomes agree on
every component of the final state except the recorded outcome bits,
and the buffer is empty at run end in either case. -/
theorem c1_upload_outcome_ignored (w1 w2 : World) (cs : Int)
    (prev : List MetaRecord) (entries : List SitemapEntry)
    (hd : w1.download = w2.download) (hn : w1.now = w2.now) :
    (process_updates w1 cs prev entries).newMeta = []
    ∧ (process_updates w1 cs prev entries).cumulative
        = (process_updates w2 cs prev entries).cumulative
    ∧ (process_updates w1 cs prev entries).nextId
        = (process_updates w2 cs prev entries).nextId
    ∧ (process_updates w1 cs prev entries).chunkCounter
        = (process_updates w2 cs prev entries).chunkCounter
    ∧ (process_updates w1 cs prev entries).flushed.map (fun c => (c.1, c.2.1))
        = (process_updates w2 cs prev entries).flushed.map (fun c => (c.1, c.2.1)) := by
  let R : RunState → RunState → Prop := fun s t =>
    s.newMeta = t.newMeta ∧ s.cumulative = t.cumulative ∧ s.nextId = t.nextId
    ∧ s.chunkCounter = t.chunkCounter
    ∧ s.flushed.map (fun c => (c.1, c.2.1)) = t.flushed.map (fun c => (c.1, c.2.1))
  have hflush : ∀ s t, R s t → R (flushChunk w1 s) (flushChunk w2 t) := by
    intro s t hR
    obtain ⟨e1, e2, e3, e4, e5⟩ := hR
    refine ⟨rfl, e2, e3, ?_, ?_⟩
    · show s.chunkCounter + 1 = t.chunkCounter + 1
      rw [e4]
    · show (s.flushed ++ [(s.chunkCounter + 1, s.newMeta.map serializeRecord,
          w1.uploadOk (s.chunkCounter + 1))]).map (fun c => (c.1, c.2.1))
        = (t.flushed ++ [(t.chunkCounter + 1, t.newMeta.map serializeRecord,
          w2.uploadOk (t.chunkCounter + 1))]).map (fun c => (c.1, c.2.1))
      rw [List.map_append, List.map_append, e5, e4, e1]
      rfl
  have happ : ∀ s t url, R s t → R (appendRecord w1 s url) (appendRecord w2 t url) := by
    intro s t url hR
    obtain ⟨e1, e2, e3, e4, e5⟩ := hR
    have hrec : newRecordOf w1 s url = newRecordOf w2 t url := by
      unfold newRecordOf
      rw [e3, hn]
    refine ⟨?_, ?_, ?_, e4, e5⟩
    · show s.newMeta ++ [newRecordOf w1 s url] = t.newMeta ++ [newRecordOf w2 t url]
      rw [e1, hrec]
    · show s.cumulative ++ [newRecordOf w1 s url] = t.cumulative ++ [newRecordOf w2 t url]
      rw [e2, hrec]
    · show s.nextId + 1 = t.nextId + 1
      rw [e3]
  have hstep : ∀ s t e, R s t →
      R (stepUpdate w1 cs (urlLatest prev) s e)
        (stepUpdate w2 cs (urlLatest prev) t e) := by
    intro s t e hR
    unfold stepUpdate
    rw [← hd]
    rcases hfr : fetchRequired (urlLatest prev) e.url e.lastmod with _ | _
    · rw [if_neg Bool.false_ne_true, if_neg Bool.false_ne_true]
      exact hR
    · rw [if_pos rfl, if_pos rfl]
      cases hdl : w1.download e.url with
      | none => exact hR
      | some c =>
        have hApp := happ s t e.url hR
        have hlen : ((appendRecord w1 s e.url).newMeta.length : Int)
            = ((appendRecord w2 t e.url).newMeta.length : Int) := by
          rw [hApp.1]
        unfold recordNew
        by_cases hge : ((appendRecord w1 s e.url).newMeta.length : Int) ≥ cs
        · rw [if_pos hge, if_pos (hlen ▸ hge)]
          exact hflush _ _ hApp
        · rw [if_neg hge, if_neg (by rw [← hlen]; exact hge)]
          exact hApp
  have hrel := foldl_rel R (stepUpdate w1 cs (urlLatest prev))
    (stepUpdate w2 cs (urlLatest prev)) entries (initState prev) (initState prev)
    ⟨rfl, rfl, rfl, rfl, rfl⟩ (fun s t e hR => hstep s t e hR)
  have hfin : R (process_updates w1 cs prev entries)
      (process_updates w2 cs prev entries) := by
    unfold process_updates finalFlush
    obtain ⟨e1, e2, e3, e4, e5⟩ := hrel
    rcases hemp : (entries.foldl (stepUpdate w1 cs (urlLatest prev))
        (initState prev)).newMeta.isEmpty with _ | _
    · have hnot2 : ¬ ((entries.foldl (stepUpdate w2 cs (urlLatest prev))
          (initState prev)).newMeta.isEmpty = true) := by
        rw [← e1, hemp]
        exact Bool.false_ne_true
      rw [if_neg Bool.false_ne_true, if_neg hnot2]
      exact hflush _ _ ⟨e1, e2, e3, e4, e5⟩
    · have hpos2 : (entries.foldl (stepUpdate w2 cs (urlLatest prev))
          (initState prev)).newMeta.isEmpty = true := by
        rw [← e1]
        exact hemp
      rw [if_pos rfl, if_pos hpos2]
      exact ⟨e1, e2, e3, e4, e5⟩
  obtain ⟨f1, f2, f3, f4, f5⟩ := hfin
  exact ⟨process_updates_newMeta_nil w1 cs prev entries, f2, f3, f4, f5⟩

/-- Witness for the amended C1: a run whose uploads all fail agrees with
the all-uploads-succeed run on everything but the recorded outcomes, and
ends with an empty buffer. -/
theorem c1_upload_outcome_ignored_witness :
    (process_updates wFailUpload 1 [] [entryU]).newMeta = []
    ∧ (process_updates wFailUpload 1 [] [entryU]).cumulative
        = (process_updates wOk 1 [] [entryU]).cumulative
    ∧ (process_updates wFailUpload 1 [] [entryU]).nextId
        = (process_updates wOk 1 [] [entryU]).nextId
    ∧ (process_updates wFailUpload 1 [] [entryU]).chunkCounter
        = (process_updates wOk 1 [] [entryU]).chunkCounter
    ∧ (process_updates wFailUpload 1 [] [entryU]).flushed.map (fun c => (c.1, c.2.1))
        = (process_updates wOk 1 [] [entryU]).flushed.map (fun c => (c.1, c.2.1)) :=
  c1_upload_outcome_ignored wFailUpload wOk 1 [] [entryU] rfl rfl

/-- C4 (code bug): re-running the crawl against an unchanged sitemap,
with every download and upload succeeding, creates a new record and
flushes a new chunk on the second run, because save_meta_chunk omits the
url field and load_previous_meta therefore cannot rebuild url_latest:
the first run flushed chunk 1, and the second run, loading exactly what
the first run wrote, fetches the same url again (cumulative grows to 2
records) and flushes its own chunk 1. -/
theorem c4_second_run_refetches :
    firstRun.flushed.map (fun c => c.1) = [1]
    ∧ secondRun.cumulative.length = 2
    ∧ secondRun.flushed.map (fun c => c.1) = [1] := by
  decide

end KnowledgeRag
